import Mathlib

/-!
Shallow embedding of the gesture-driven routine automation core: the
one-dollar unistroke recognizer, the gesture validator, the recognition
engine, the routine executor and the routine store, translated from the
TypeScript sources.  JavaScript double arithmetic is modelled by the
reals; the Infinity sentinel used by the recognizer best-distance fold
(and the score derived from it) is modelled in EReal.
-/

namespace CodePen

/-- A 2D point (source: interface Point of the recognizer module). -/
structure Point where
  x : ℝ
  y : ℝ

/-- Resample target, source constant NumPoints = 64. -/
def NumPoints : ℕ := 64

/-- Source constant SquareSize = 250.0. -/
noncomputable def SquareSize : ℝ := 250.0

/-- Source constant Origin = (0, 0). -/
def Origin : Point := ⟨0, 0⟩

/-- Source constant Diagonal = sqrt (SquareSize^2 + SquareSize^2). -/
noncomputable def Diagonal : ℝ := Real.sqrt (SquareSize * SquareSize + SquareSize * SquareSize)

/-- Source constant HalfDiagonal = 0.5 * Diagonal. -/
noncomputable def HalfDiagonal : ℝ := 0.5 * Diagonal

/-- Source constant AngleRange = 45.0 degrees. -/
noncomputable def AngleRange : ℝ := 45.0

/-- Source constant AnglePrecision = 2.0 degrees. -/
noncomputable def AnglePrecision : ℝ := 2.0

/-- Source constant Phi = 0.5 * (-1 + sqrt 5), the golden ratio conjugate. -/
noncomputable def Phi : ℝ := 0.5 * (-1.0 + Real.sqrt 5.0)

/-- Euclidean distance (source: DollarRecognizer.distance). -/
noncomputable def distance (p1 p2 : Point) : ℝ :=
  Real.sqrt ((p2.x - p1.x) * (p2.x - p1.x) + (p2.y - p1.y) * (p2.y - p1.y))

/-- Sum of the segment lengths of a stroke (source: DollarRecognizer.pathLength,
a loop over consecutive point pairs). -/
noncomputable def pathLength : List Point → ℝ
  | p :: q :: rest => distance p q + pathLength (q :: rest)
  | _ => 0

/-- Mean of the points (source: DollarRecognizer.centroid). -/
noncomputable def centroid (points : List Point) : Point :=
  ⟨(points.map Point.x).sum / points.length, (points.map Point.y).sum / points.length⟩

/-- JavaScript Math.atan2 via the complex argument: atan2 y x = arg (x + y*i).
Both take values in (-pi, pi] with the same sign conventions. -/
noncomputable def atan2 (y x : ℝ) : ℝ := Complex.arg ⟨x, y⟩

/-- Angle from the first point of the stroke to its centroid
(source: DollarRecognizer.indicativeAngle). -/
noncomputable def indicativeAngle (points : List Point) : ℝ :=
  let c := centroid points
  atan2 (c.y - (points.headD Origin).y) (c.x - (points.headD Origin).x)

/-- Rotate all points about the centroid (source: DollarRecognizer.rotateBy). -/
noncomputable def rotateBy (points : List Point) (radians : ℝ) : List Point :=
  let c := centroid points
  let cosr := Real.cos radians
  let sinr := Real.sin radians
  points.map fun p =>
    ⟨(p.x - c.x) * cosr - (p.y - c.y) * sinr + c.x,
     (p.x - c.x) * sinr + (p.y - c.y) * cosr + c.y⟩

/-- Axis-aligned bounding box record (source: DollarRecognizer.boundingBox
return shape). -/
structure BBox where
  x : ℝ
  y : ℝ
  width : ℝ
  height : ℝ

/-- Bounding box of a stroke (source: DollarRecognizer.boundingBox).  The
source folds min and max starting from plus and minus Infinity; over the
nonempty strokes it is always applied to, that equals folding from the
first point, which is how the fold is written here. -/
noncomputable def boundingBox : List Point → BBox
  | [] => ⟨0, 0, 0, 0⟩
  | p :: ps =>
    let minX := ps.foldl (fun m q => min m q.x) p.x
    let minY := ps.foldl (fun m q => min m q.y) p.y
    let maxX := ps.foldl (fun m q => max m q.x) p.x
    let maxY := ps.foldl (fun m q => max m q.y) p.y
    ⟨minX, minY, maxX - minX, maxY - minY⟩

/-- Scale so the bounding box becomes a size-by-size square, with separate
x and y factors (source: DollarRecognizer.scaleToSquare). -/
noncomputable def scaleToSquare (points : List Point) (size : ℝ) : List Point :=
  let B := boundingBox points
  points.map fun p => ⟨p.x * (size / B.width), p.y * (size / B.height)⟩

/-- Translate so the centroid lands on the origin
(source: DollarRecognizer.translateToOrigin). -/
noncomputable def translateToOrigin (points : List Point) : List Point :=
  let c := centroid points
  points.map fun p => ⟨p.x - c.x, p.y - c.y⟩

/-- JavaScript Array.splice(i, 0, a): insert a at index i. -/
def splice (l : List α) (i : ℕ) (a : α) : List α := l.take i ++ a :: l.drop i

/-- The resample while-loop (source: DollarRecognizer.resample).  State: the
working point list srcPts (the source splices interpolated points into it),
the index i, the accumulated distance D, and the emitted points.  The source
loop has no structural termination measure (the index does not advance on
the splice branch), so it is modelled with explicit fuel; fuel exhaustion
returns the state reached so far. -/
noncomputable def resampleLoop (I : ℝ) :
    ℕ → List Point → ℕ → ℝ → List Point → List Point × List Point
  | 0, srcPts, _, _, newPoints => (srcPts, newPoints)
  | fuel + 1, srcPts, i, D, newPoints =>
    if i < srcPts.length then
      let prev := srcPts.getD (i - 1) Origin
      let cur := srcPts.getD i Origin
      let d := distance prev cur
      if I ≤ D + d then
        let q : Point := ⟨prev.x + ((I - D) / d) * (cur.x - prev.x),
                          prev.y + ((I - D) / d) * (cur.y - prev.y)⟩
        resampleLoop I fuel (splice srcPts i q) i 0 (newPoints ++ [q])
      else
        resampleLoop I fuel srcPts (i + 1) (D + d) newPoints
    else (srcPts, newPoints)

/-- Resample a stroke to n equidistant points (source: DollarRecognizer.resample).
The emitted list starts with the first input point; after the loop, if only
n - 1 points were emitted, the last working point is appended. -/
noncomputable def resample (points : List Point) (n : ℕ) : List Point :=
  let I := pathLength points / ((n : ℝ) - 1)
  let st := resampleLoop I ((points.length + n) * NumPoints) points 1 0 [points.headD Origin]
  if st.2.length = n - 1 then st.2 ++ [st.1.getLast?.getD Origin] else st.2

/-- The normalization pipeline: resample, rotate by the negative indicative
angle, scale to the square, translate to the origin
(source: DollarRecognizer.normalize). -/
noncomputable def normalize (points : List Point) : List Point :=
  let np0 := resample points NumPoints
  let radians := indicativeAngle np0
  let np1 := rotateBy np0 (-radians)
  let np2 := scaleToSquare np1 SquareSize
  translateToOrigin np2

/-- Mean pointwise distance of two equally resampled strokes
(source: DollarRecognizer.pathDistance). -/
noncomputable def pathDistance (pts1 pts2 : List Point) : ℝ :=
  let len := min pts1.length pts2.length
  ((List.range len).map fun i => distance (pts1.getD i Origin) (pts2.getD i Origin)).sum / len

/-- Distance after rotating the candidate by the given angle
(source: DollarRecognizer.distanceAtAngle). -/
noncomputable def distanceAtAngle (points T : List Point) (radians : ℝ) : ℝ :=
  pathDistance (rotateBy points radians) T

/-- The golden-section search loop (source: DollarRecognizer.distanceAtBestAngle,
while loop).  The bracket shrinks geometrically, so the source loop always
terminates in a bounded number of steps; it is modelled with fuel, returning
min f1 f2 on exit. -/
noncomputable def bestAngleLoop (points T : List Point) (threshold : ℝ) :
    ℕ → ℝ → ℝ → ℝ → ℝ → ℝ → ℝ → ℝ
  | 0, _, _, _, f1, _, f2 => min f1 f2
  | fuel + 1, a, b, x1, f1, x2, f2 =>
    if threshold < |b - a| then
      if f1 < f2 then
        let b2 := x2
        let nx1 := Phi * a + (1.0 - Phi) * b2
        bestAngleLoop points T threshold fuel a b2 nx1 (distanceAtAngle points T nx1) x1 f1
      else
        let a2 := x1
        let nx2 := (1.0 - Phi) * a2 + Phi * b
        bestAngleLoop points T threshold fuel a2 b x2 f2 nx2 (distanceAtAngle points T nx2)
    else min f1 f2

/-- Rotation-invariant distance via golden-section search over the angle
bracket (source: DollarRecognizer.distanceAtBestAngle). -/
noncomputable def distanceAtBestAngle (points T : List Point) (a b threshold : ℝ) : ℝ :=
  let x1 := Phi * a + (1.0 - Phi) * b
  let x2 := (1.0 - Phi) * a + Phi * b
  bestAngleLoop points T threshold NumPoints a b
    x1 (distanceAtAngle points T x1) x2 (distanceAtAngle points T x2)

/-- A named template group: one routine name with all its recorded samples
(source: the templates argument shape of DollarRecognizer.recognize). -/
structure Template where
  name : String
  points : List (List Point)

/-- Recognizer result (source: interface Result). -/
structure Result where
  name : String
  score : EReal

/-- Inner loop of the recognizer: fold one template group's samples over the
running (bestDistance, bestTemplate) pair (source: the inner for loop of
DollarRecognizer.recognize). -/
noncomputable def sampleFold (candidate : List Point) (nm : String)
    (samples : List (List Point)) (best : EReal × String) : EReal × String :=
  samples.foldl (fun best sampleRaw =>
    if ((distanceAtBestAngle candidate (normalize sampleRaw)
        (-AngleRange) AngleRange AnglePrecision : ℝ) : EReal) < best.1 then
      (((distanceAtBestAngle candidate (normalize sampleRaw)
        (-AngleRange) AngleRange AnglePrecision : ℝ) : EReal), nm)
    else best) best

/-- Outer loop of the recognizer: fold every template group (source: the
outer for loop of DollarRecognizer.recognize). -/
noncomputable def bestFold (candidate : List Point) (templates : List Template)
    (best : EReal × String) : EReal × String :=
  templates.foldl (fun best tg => sampleFold candidate tg.name tg.points best) best

/-- The recognizer entry point (source: DollarRecognizer.recognize).  Fewer
than 5 candidate points return the sentinel result at once.  Otherwise the
candidate is normalized and compared against every sample of every template
group, tracking the running best distance, which starts at the JavaScript
Infinity sentinel (modelled as the top element of EReal).  The score is
1 - bestDistance / HalfDiagonal. -/
noncomputable def recognize (candidateRaw : List Point) (templates : List Template) : Result :=
  if candidateRaw.length < 5 then ⟨"", 0⟩
  else
    let candidate := normalize candidateRaw
    let best := bestFold candidate templates ((⊤ : EReal), "")
    ⟨best.2, 1 - best.1 / (HalfDiagonal : EReal)⟩

/-! ### Gesture validator (source: gestureValidator module) -/

/-- Source constant GestureValidator.SIMILARITY_THRESHOLD = 0.78. -/
noncomputable def SIMILARITY_THRESHOLD : ℝ := 0.78

/-- Source constant MIN_POINTS = 5 (shared by the validator and the engine). -/
def MIN_POINTS : ℕ := 5

/-- Validation result (source: interface ValidationResult).  The
human-readable message field of the source, a purely presentational
string, is omitted. -/
structure ValidationResult where
  isValid : Bool
  similarTo : Option String := none
  score : EReal

/-- A JavaScript record with string keys, modelled as an association list
in insertion order (JavaScript objects enumerate string keys in insertion
order, and assignment to an existing key keeps its position). -/
abbrev Record (α : Type) := List (String × α)

/-- JavaScript record read m[k] (keys are unique in every record the store
builds, so the first hit is the binding). -/
def recLookup (m : Record α) (k : String) : Option α :=
  (m.find? fun p => p.1 == k).map (·.2)

/-- JavaScript record write m[k] = v: overwrite in place if the key exists,
otherwise append. -/
def recInsert (m : Record α) (k : String) (v : α) : Record α :=
  if m.any (fun p => p.1 == k) then m.map (fun p => if p.1 == k then (k, v) else p)
  else m ++ [(k, v)]

/-- The validator (source: GestureValidator.validate).  Rejects short
candidates at once; builds templates from the existing gestures minus the
excluded name; accepts trivially when no templates remain; otherwise asks
the recognizer and rejects exactly when the score exceeds the similarity
threshold. -/
noncomputable def validate (candidatePoints : List Point)
    (existingGestures : Record (List (List Point)))
    (excludeRoutineName : Option String) : ValidationResult :=
  if candidatePoints.length < MIN_POINTS then ⟨false, none, 0⟩
  else
    let templates := (existingGestures.filter fun p => some p.1 != excludeRoutineName).map
      fun p => Template.mk p.1 p.2
    if templates.length = 0 then ⟨true, none, 0⟩
    else
      let result := recognize candidatePoints templates
      if ((SIMILARITY_THRESHOLD : ℝ) : EReal) < result.score then
        ⟨false, some result.name, result.score⟩
      else ⟨true, none, result.score⟩

/-! ### Routines and the recognition engine
(sources: routineManager and gestureRecognitionEngine modules) -/

/-- Step type of a routine command (source: the RoutineCommand type tags
vscode-command, terminal-command and delay used by executeRoutine). -/
inductive CmdType where
  | vscodeCommand
  | terminalCommand
  | delay
deriving DecidableEq

/-- A typed routine command (source: RoutineCommand, with a command payload,
a type tag and an optional label). -/
structure RoutineCommand where
  command : String
  type : CmdType
  label : Option String := none

/-- A stored command: legacy routines hold plain command strings, newer ones
hold typed RoutineCommand objects (source: the string-or-object union that
executeRoutine normalizes with a typeof check). -/
inductive RoutineCmd where
  | str (s : String)
  | obj (c : RoutineCommand)

/-- A routine record (source: interface Routine).  Optional fields are
Option; undefined is none. -/
structure Routine where
  name : String
  commands : List RoutineCmd
  samples : List (List Point)
  enabled : Option Bool := none
  delay : Option ℕ := none
  createdAt : Option ℕ := none
  updatedAt : Option ℕ := none

/-- Engine result (source: interface RecognitionResult). -/
structure RecognitionResult where
  recognized : Bool
  routineName : Option String := none
  score : EReal
  routine : Option Routine := none

/-- Source constant GestureRecognitionEngine.RECOGNITION_THRESHOLD = 0.80. -/
noncomputable def RECOGNITION_THRESHOLD : ℝ := 0.80

/-- All routines whose enabled flag is not the explicit false
(source: RoutineManager.getEnabled, condition routine.enabled !== false). -/
def getEnabled (routines : Record Routine) : Record Routine :=
  routines.filter fun p => p.2.enabled != some false

/-- The engine recognition decision (source: GestureRecognitionEngine.recognize).
Short strokes and an empty enabled set return a clean zero-score rejection;
otherwise the recognizer runs over templates built from the enabled routines
and the threshold decides the verdict, with the best name and score reported
either way and the full stored routine attached on success.  The output
channel logging of the source is omitted. -/
noncomputable def engineRecognize (routines : Record Routine) (points : List Point) :
    RecognitionResult :=
  if points.length < MIN_POINTS then ⟨false, none, 0, none⟩
  else
    let enabledRoutines := getEnabled routines
    let templates := enabledRoutines.map fun p => Template.mk p.1 p.2.samples
    if templates.length = 0 then ⟨false, none, 0, none⟩
    else
      let result := recognize points templates
      if ((RECOGNITION_THRESHOLD : ℝ) : EReal) ≤ result.score then
        ⟨true, some result.name, result.score, recLookup enabledRoutines result.name⟩
      else ⟨false, some result.name, result.score, none⟩

/-! ### Routine executor (source: GestureRecognitionEngine.executeRoutine,
the typed-command version with the inter-command delay exemption) -/

/-- Observable executor events: a suspension of some milliseconds (the
setTimeout awaits of the source) and the attempt of step i (the dispatch of
the step body to its collaborator). -/
inductive ExecEvent where
  | sleep (ms : ℕ)
  | attempt (i : ℕ)
deriving DecidableEq

/-- Legacy compatibility normalization (source: the typeof check in
executeRoutine): a plain string becomes a vscode-command with that payload. -/
def normCmd : RoutineCmd → RoutineCommand
  | .str s => ⟨s, .vscodeCommand, none⟩
  | .obj c => c

/-- JavaScript parseInt(s) || 0 on the non-negative integer payloads the
delay steps carry: the leading decimal digits, or 0 when there are none. -/
def parseIntOr0 (s : String) : ℕ := ((s.takeWhile Char.isDigit).toNat?).getD 0

/-- The executor loop (source: the for loop of executeRoutine).  The host
collaborators are abstracted by the oracle o: o i decides whether the
collaborator call of step i throws (only non-delay steps dispatch to a
collaborator that can throw; a delay step only awaits its own setTimeout).
State: remaining commands, current index, success and failure counters, and
the event trace so far.  Returns the two counters and the trace. -/
def execLoop (o : ℕ → Bool) (delay : ℕ) :
    List RoutineCmd → ℕ → ℕ → ℕ → List ExecEvent → (ℕ × ℕ) × List ExecEvent
  | [], _, succ, fail, trace => ((succ, fail), trace)
  | cmdObj :: rest, i, succ, fail, trace =>
    let cmd := normCmd cmdObj
    let trace1 := trace ++ (if 0 < i ∧ 0 < delay ∧ cmd.type ≠ .delay then [.sleep delay] else [])
    let trace2 := trace1 ++ [.attempt i]
    match cmd.type with
    | .delay =>
      let delayMs := parseIntOr0 cmd.command
      let trace3 := trace2 ++ (if 0 < delayMs then [.sleep delayMs] else [])
      execLoop o delay rest (i + 1) (succ + 1) fail trace3
    | _ =>
      if o i then execLoop o delay rest (i + 1) succ (fail + 1) trace2
      else execLoop o delay rest (i + 1) (succ + 1) fail trace2

/-- The executor (source: executeRoutine).  delay is routine.delay || 0;
every step is attempted in order: a throwing collaborator call is caught,
counted as failed, and the loop continues.  The result carries the success
and failed counters; the trace records the suspensions and attempts. -/
def executeRoutine (o : ℕ → Bool) (routine : Routine) : (ℕ × ℕ) × List ExecEvent :=
  execLoop o (routine.delay.getD 0) routine.commands 0 0 0 []

/-- Spec-side description of one step of the executor: the events step i
contributes to the trace.  A non-delay step is preceded by the
inter-command suspension exactly when i > 0 and the routine delay is
positive; a delay step is never preceded by it and only awaits its own
payload. -/
def stepTrace (delay : ℕ) (i : ℕ) (c : RoutineCmd) : List ExecEvent :=
  (if 0 < i ∧ 0 < delay ∧ (normCmd c).type ≠ .delay then [.sleep delay] else []) ++
    [.attempt i] ++
    (match (normCmd c).type with
     | .delay =>
       if 0 < parseIntOr0 (normCmd c).command then [.sleep (parseIntOr0 (normCmd c).command)]
       else []
     | _ => [])

/-- Spec-side trace of a whole command list starting at step index i. -/
def routineTrace (delay : ℕ) : List RoutineCmd → ℕ → List ExecEvent
  | [], _ => []
  | c :: rest, i => stepTrace delay i c ++ routineTrace delay rest (i + 1)

/-- A step fails exactly when its collaborator call throws: only non-delay
steps dispatch to a throwing collaborator. -/
def stepFails (o : ℕ → Bool) (i : ℕ) (c : RoutineCmd) : Bool :=
  decide ((normCmd c).type ≠ CmdType.delay) && o i

/-- Number of failing steps of a command list starting at step index i. -/
def failingCount (o : ℕ → Bool) : List RoutineCmd → ℕ → ℕ
  | [], _ => 0
  | c :: rest, i => (if stepFails o i c then 1 else 0) + failingCount o rest (i + 1)

/-- Whether an executor event is a step attempt. -/
def ExecEvent.isAttempt : ExecEvent → Bool
  | .attempt _ => true
  | .sleep _ => false

/-! ### Routine store (source: RoutineManager.save_routine, the validated
version: structural checks, name trim, createdAt preservation, updatedAt
refresh, enabled default) -/

/-- JavaScript String.prototype.trim (the source trims routine names):
strip leading and trailing whitespace characters. -/
def jsTrim (s : String) : String :=
  ⟨((s.data.dropWhile Char.isWhitespace).reverse.dropWhile Char.isWhitespace).reverse⟩

/-- JavaScript a || b on an optional number: b when a is undefined or 0
(both are falsy), a otherwise. -/
def jsOrNat (a : Option ℕ) (b : ℕ) : ℕ :=
  match a with
  | some v => if v = 0 then b else v
  | none => b

/-- Create or update a routine (source: RoutineManager.save_routine).  The
three structural checks throw before any mutation; on success the routine
is stored under its trimmed name with createdAt preserved from an existing
record (or set to now), updatedAt refreshed, and enabled defaulted to true.
Throwing is modelled by Except.error carrying the message; the persistence
write and the recognizer cache invalidation have no observable effect on
the routine map. -/
def save_routine (routines : Record Routine) (routine : Routine) (now : ℕ) :
    Except String (Record Routine) :=
  if jsTrim routine.name = "" then
    .error "El nombre de la rutina no puede estar vacio"
  else if routine.commands.isEmpty then
    .error "La rutina debe tener al menos un comando"
  else if routine.samples.isEmpty then
    .error "La rutina debe tener al menos una muestra de gesto"
  else
    let key := jsTrim routine.name
    let existing := recLookup routines key
    let updated : Routine :=
      { routine with
        name := key
        createdAt := some (jsOrNat (existing.bind Routine.createdAt) now)
        updatedAt := some now
        enabled := some (routine.enabled.getD true) }
    .ok (recInsert routines key updated)

/-- The routine map held by the manager after a save_routine call: the new
map on success, the old map when the call threw (the source throws before
any assignment to the map). -/
def runSave (routines : Record Routine) (routine : Routine) (now : ℕ) : Record Routine :=
  match save_routine routines routine now with
  | .ok m => m
  | .error _ => routines

/-! ### Reference semantics of the routine table (for the aliasing claims)

JavaScript getAll() returns the spread copy of the routines object: a fresh
table whose entries still reference the same routine record objects.  To
state what a previously handed-out view can observe, the table is modelled
with explicit references: a heap of routine records addressed by index, and
a table binding names to addresses.  save_routine builds a fresh record
object (a new address) and rebinds the name; toggle assigns to the fields
of the existing record (the same address). -/

/-- A store state with explicit record identity. -/
structure HeapState where
  heap : List Routine
  table : List (String × ℕ)

/-- Dereference an address. -/
def derefH (s : HeapState) (a : ℕ) : Option Routine := s.heap[a]?

/-- getAll() (source: return the spread copy of this.routines): a fresh
table value carrying the same name-to-record references. -/
def getAllH (s : HeapState) : List (String × ℕ) := s.table

/-- getEnabled() (source: RoutineManager.getEnabled): a fresh table keeping
the references whose record does not have enabled === false. -/
def getEnabledH (s : HeapState) : List (String × ℕ) :=
  s.table.filter fun p =>
    match derefH s p.2 with
    | some r => r.enabled != some false
    | none => false

/-- What a reader holding a view (a list of name-to-record references) sees
when it dereferences the view in a given state. -/
def materialize (s : HeapState) (view : List (String × ℕ)) : List (String × Option Routine) :=
  view.map fun p => (p.1, derefH s p.2)

/-- toggle (source: RoutineManager.toggle): look the record up; when found,
assign its enabled and updatedAt fields in place, that is, rewrite the heap
cell at the same address. -/
def toggleH (s : HeapState) (nm : String) (now : ℕ) : HeapState × Bool :=
  match recLookup s.table nm with
  | none => (s, false)
  | some a =>
    match s.heap[a]? with
    | none => (s, false)
    | some r =>
      let r2 : Routine := { r with enabled := some (!(r.enabled.getD true)), updatedAt := some now }
      ({ s with heap := s.heap.set a r2 }, true)

/-- save_routine under reference semantics: same checks and same updated
record as save_routine, but the updated record is a freshly allocated
object (the object literal of the source), so it gets a new address and the
table entry for the name is rebound to it; pre-existing records are never
written to. -/
def save_routineH (s : HeapState) (routine : Routine) (now : ℕ) : Except String HeapState :=
  if jsTrim routine.name = "" then
    .error "El nombre de la rutina no puede estar vacio"
  else if routine.commands.isEmpty then
    .error "La rutina debe tener al menos un comando"
  else if routine.samples.isEmpty then
    .error "La rutina debe tener al menos una muestra de gesto"
  else
    let key := jsTrim routine.name
    let existing := (recLookup s.table key).bind fun a => derefH s a
    let updated : Routine :=
      { routine with
        name := key
        createdAt := some (jsOrNat (existing.bind Routine.createdAt) now)
        updatedAt := some now
        enabled := some (routine.enabled.getD true) }
    .ok { heap := s.heap ++ [updated], table := recInsert s.table key s.heap.length }

/-- delete (source: RoutineManager.delete): unbind the name from the table;
no record object is written to. -/
def deleteH (s : HeapState) (nm : String) : HeapState × Bool :=
  match recLookup s.table nm with
  | none => (s, false)
  | some _ => ({ s with table := s.table.filter fun p => p.1 != nm }, true)

/-! ### Derived views of the recognizer fold (for the score-shape claims) -/

/-- The best-angle path distance of the candidate against every sample of
every template group, in traversal order (candidate and samples normalized
as in the recognizer). -/
noncomputable def sampleDistances (candidateRaw : List Point) (templates : List Template) :
    List ℝ :=
  (templates.map fun tg => tg.points.map fun sampleRaw =>
    distanceAtBestAngle (normalize candidateRaw) (normalize sampleRaw)
      (-AngleRange) AngleRange AnglePrecision).flatten

/-- Minimum of a real distance list under the recognizer comparison, folded
from the Infinity sentinel. -/
noncomputable def distMin (l : List ℝ) (init : EReal) : EReal :=
  l.foldl (fun (b : EReal) (d : ℝ) => if (d : EReal) < b then (d : EReal) else b) init

/-! ### Uniform scaling of a stroke (the transformation quantified over by
the scale-invariance property) -/

/-- Scale one point by the factor k about the origin. -/
noncomputable def scalePt (k : ℝ) (p : Point) : Point := ⟨k * p.x, k * p.y⟩

/-- Scale a whole stroke uniformly by the factor k. -/
noncomputable def scaleStroke (k : ℝ) (points : List Point) : List Point :=
  points.map (scalePt k)

/-! ### Concrete data used by the witnesses -/

/-- A concrete five-point stroke. -/
noncomputable def P5 : List Point := [⟨0, 0⟩, ⟨1, 0⟩, ⟨2, 0⟩, ⟨3, 0⟩, ⟨4, 0⟩]

/-- A concrete enabled routine with one sample and one command. -/
noncomputable def rtA : Routine :=
  { name := "A", commands := [.str "editor.action.formatDocument"],
    samples := [[⟨0, 0⟩, ⟨1, 0⟩]], enabled := some true }

/-- A concrete routine store holding rtA. -/
noncomputable def R0 : Record Routine := [("A", rtA)]

/-- A routine record for the aliasing scenario (no samples are needed). -/
def rt9 : Routine := { name := "A", commands := [], samples := [], enabled := some true }

/-- A one-routine heap state for the aliasing scenario. -/
def s9 : HeapState := ⟨[rt9], [("A", 0)]⟩

/-- A concrete routine with a delay step and a plain command step. -/
def rDelay : Routine :=
  { name := "D", commands := [.obj ⟨"250", .delay, none⟩, .str "workbench.action.files.save"],
    samples := [], delay := some 100 }

/-- A structurally invalid routine: its command list is empty. -/
noncomputable def rBad : Routine :=
  { name := "A", commands := [], samples := [[⟨0, 0⟩]] }

/-- A structurally valid routine for the save witnesses. -/
noncomputable def rGood : Routine :=
  { name := "  A  ", commands := [.str "git.push"], samples := [[⟨0, 0⟩]] }

/-! ## Theorems -/

theorem HalfDiagonal_pos : 0 < HalfDiagonal := by
  unfold HalfDiagonal Diagonal SquareSize
  positivity

/-- C2: for every input stroke with fewer than 5 points, the recognizer
returns the empty-name zero-score sentinel at once (before the
normalization pipeline runs), and the validator rejects with score 0,
regardless of template content. -/
theorem min_points_floor (pts : List Point) (templates : List Template)
    (gestures : Record (List (List Point))) (exclude : Option String)
    (h : pts.length < 5) :
    recognize pts templates = ⟨"", 0⟩ ∧
      validate pts gestures exclude = ⟨false, none, 0⟩ := by
  constructor
  · unfold recognize
    rw [if_pos h]
  · unfold validate
    rw [if_pos (by simpa [MIN_POINTS] using h)]

/-- Witness for C2 at a concrete one-point stroke. -/
theorem min_points_floor_witness :
    [Origin].length < 5 ∧
      recognize [Origin] [] = ⟨"", 0⟩ ∧
        validate [Origin] [] none = ⟨false, none, 0⟩ :=
  ⟨by decide, min_points_floor [Origin] [] [] none (by decide)⟩

/-- C10: with at least 5 points and zero templates the recognizer does not
fail: the best distance keeps its Infinity sentinel, the returned name is
empty and the score is 1 minus Infinity over the half diagonal, which lies
strictly below every positive threshold; the engine guards the empty case
itself, reporting a clean zero score when no enabled routine exists. -/
theorem empty_template_set (pts : List Point) (h5 : 5 ≤ pts.length) :
    recognize pts [] = ⟨"", ⊥⟩ ∧
      (∀ t : ℝ, 0 < t → (recognize pts []).score < ((t : ℝ) : EReal)) ∧
      (∀ routines : Record Routine, getEnabled routines = [] →
        engineRecognize routines pts = ⟨false, none, 0, none⟩) := by
  have hlt : ¬ pts.length < 5 := not_lt.mpr h5
  have hdiv : (⊤ : EReal) / (HalfDiagonal : EReal) = ⊤ :=
    EReal.top_div_of_pos_ne_top (by exact_mod_cast HalfDiagonal_pos) (EReal.coe_ne_top _)
  have hrec : recognize pts [] = ⟨"", ⊥⟩ := by
    unfold recognize
    rw [if_neg hlt]
    show Result.mk "" (1 - (⊤ : EReal) / (HalfDiagonal : EReal)) = Result.mk "" ⊥
    rw [hdiv, EReal.sub_top]
  refine ⟨hrec, ?_, ?_⟩
  · intro t _
    rw [hrec]
    exact EReal.bot_lt_coe t
  · intro routines hge
    simp [engineRecognize, MIN_POINTS, hlt, hge]

/-- Witness for C10 at a concrete five-point stroke. -/
theorem empty_template_set_witness :
    5 ≤ P5.length ∧ recognize P5 [] = ⟨"", ⊥⟩ :=
  ⟨by decide, (empty_template_set P5 (by decide)).1⟩

/-- C3: with at least 5 points, the validator accepts with score 0 when the
gesture map minus the excluded name is empty; otherwise it runs the
recognizer over the remaining entries and rejects, reporting the
conflicting routine name and the score, exactly when that score is
strictly greater than 0.78, accepting otherwise. -/
theorem validator_decision (pts : List Point) (gestures : Record (List (List Point)))
    (exclude : Option String) (h5 : 5 ≤ pts.length) :
    ((gestures.filter fun p => some p.1 != exclude) = [] →
        validate pts gestures exclude = ⟨true, none, 0⟩) ∧
      ((gestures.filter fun p => some p.1 != exclude) ≠ [] →
        (((SIMILARITY_THRESHOLD : ℝ) : EReal) <
              (recognize pts ((gestures.filter fun p => some p.1 != exclude).map
                fun p => Template.mk p.1 p.2)).score →
            validate pts gestures exclude =
              ⟨false,
                some (recognize pts ((gestures.filter fun p => some p.1 != exclude).map
                  fun p => Template.mk p.1 p.2)).name,
                (recognize pts ((gestures.filter fun p => some p.1 != exclude).map
                  fun p => Template.mk p.1 p.2)).score⟩) ∧
          (¬ ((SIMILARITY_THRESHOLD : ℝ) : EReal) <
              (recognize pts ((gestures.filter fun p => some p.1 != exclude).map
                fun p => Template.mk p.1 p.2)).score →
            validate pts gestures exclude =
              ⟨true, none,
                (recognize pts ((gestures.filter fun p => some p.1 != exclude).map
                  fun p => Template.mk p.1 p.2)).score⟩)) := by
  have hlt : ¬ pts.length < MIN_POINTS := by simpa [MIN_POINTS] using not_lt.mpr h5
  refine ⟨?_, fun hne => ⟨?_, ?_⟩⟩
  · intro hempty
    simp [validate, hlt, hempty]
  · intro hscore
    have hlen : ¬ ((gestures.filter fun p => some p.1 != exclude).map
        (fun p => Template.mk p.1 p.2)).length = 0 := by
      simpa using hne
    simp only [validate, if_neg hlt, if_neg hlen, if_pos hscore]
  · intro hscore
    have hlen : ¬ ((gestures.filter fun p => some p.1 != exclude).map
        (fun p => Template.mk p.1 p.2)).length = 0 := by
      simpa using hne
    simp only [validate, if_neg hlt, if_neg hlen, if_neg hscore]

/-- Witness for C3: excluding the only registered name empties the
template set, so a concrete five-point candidate is accepted trivially. -/
theorem validator_decision_witness :
    5 ≤ P5.length ∧
      ([(("B" : String), ([[Origin]] : List (List Point)))].filter
          fun p => some p.1 != some "B") = [] ∧
      validate P5 [("B", [[Origin]])] (some "B") = ⟨true, none, 0⟩ :=
  ⟨by decide, rfl, (validator_decision P5 [("B", [[Origin]])] (some "B")
      (by decide)).1 rfl⟩

/-- C6: save_routine fails when the name is empty or whitespace-only, when
the command list is empty, or when the sample list is empty, and in every
failing case the stored routine map is unchanged; on success it stores the
routine under its trimmed name, preserves the original createdAt when a
routine of that name already existed and sets it to now otherwise, always
refreshes updatedAt, and defaults enabled to true when unset. -/
theorem save_routine_contract (m : Record Routine) (r : Routine) (now : ℕ) :
    ((jsTrim r.name = "" ∨ r.commands = [] ∨ r.samples = []) →
        (∃ e, save_routine m r now = .error e) ∧ runSave m r now = m) ∧
      (jsTrim r.name ≠ "" → r.commands ≠ [] → r.samples ≠ [] →
        ∃ upd,
          save_routine m r now = .ok (recInsert m (jsTrim r.name) upd) ∧
            runSave m r now = recInsert m (jsTrim r.name) upd ∧
            upd.name = jsTrim r.name ∧
            upd.commands = r.commands ∧
            upd.samples = r.samples ∧
            upd.updatedAt = some now ∧
            upd.enabled = some (r.enabled.getD true) ∧
            (recLookup m (jsTrim r.name) = none → upd.createdAt = some now) ∧
            (∀ ex c, recLookup m (jsTrim r.name) = some ex → ex.createdAt = some c → 0 < c →
              upd.createdAt = some c)) := by
  constructor
  · intro hbad
    have herr : ∃ e, save_routine m r now = .error e := by
      rcases hbad with hn | hc | hs
      · exact ⟨"El nombre de la rutina no puede estar vacio", by simp [save_routine, hn]⟩
      · have hc2 : r.commands.isEmpty = true := by simp [hc]
        by_cases hn : jsTrim r.name = ""
        · exact ⟨"El nombre de la rutina no puede estar vacio", by simp [save_routine, hn]⟩
        · exact ⟨"La rutina debe tener al menos un comando", by simp [save_routine, hn, hc2]⟩
      · have hs2 : r.samples.isEmpty = true := by simp [hs]
        by_cases hn : jsTrim r.name = ""
        · exact ⟨"El nombre de la rutina no puede estar vacio", by simp [save_routine, hn]⟩
        · by_cases hc : r.commands.isEmpty = true
          · exact ⟨"La rutina debe tener al menos un comando", by simp [save_routine, hn, hc]⟩
          · exact ⟨"La rutina debe tener al menos una muestra de gesto", by simp [save_routine, hn, hc, hs2]⟩
    obtain ⟨e, he⟩ := herr
    exact ⟨⟨e, he⟩, by simp [runSave, he]⟩
  · intro hn hc hs
    have hc2 : ¬ r.commands.isEmpty = true := by simp [hc]
    have hs2 : ¬ r.samples.isEmpty = true := by simp [hs]
    refine ⟨{ r with
        name := jsTrim r.name
        createdAt := some (jsOrNat ((recLookup m (jsTrim r.name)).bind Routine.createdAt) now)
        updatedAt := some now
        enabled := some (r.enabled.getD true) }, ?_, ?_, rfl, rfl, rfl, rfl, rfl, ?_, ?_⟩
    · simp only [save_routine, if_neg hn, if_neg hc2, if_neg hs2]
    · simp only [runSave, save_routine, if_neg hn, if_neg hc2, if_neg hs2]
    · intro hnone
      simp [hnone, jsOrNat]
    · intro ex c hex hca hcpos
      simp [hex, hca, jsOrNat, Nat.pos_iff_ne_zero.mp hcpos]

/-- Witness for C6: a concrete save with an empty command list throws and
leaves the map unchanged; a concrete valid save stores the trimmed name,
sets both timestamps to now on first save, and defaults enabled to true. -/
theorem save_routine_contract_witness :
    (rBad.commands = [] ∧ runSave [] rBad 3 = []) ∧
      ∃ upd,
        save_routine [] rGood 7 = .ok (recInsert [] "A" upd) ∧
          upd.name = "A" ∧ upd.updatedAt = some 7 ∧
          upd.enabled = some true ∧ upd.createdAt = some 7 := by
  refine ⟨⟨rfl, ((save_routine_contract [] rBad 3).1 (Or.inr (Or.inl rfl))).2⟩, ?_⟩
  obtain ⟨upd, hok, _, hname, _, _, hupd, hen, hcnone, _⟩ :=
    (save_routine_contract [] rGood 7).2 (by decide) (by simp [rGood])
      (by simp [rGood])
  have htrim : jsTrim rGood.name = "A" := by decide
  refine ⟨upd, ?_, ?_, hupd, ?_, hcnone ?_⟩
  · rw [← htrim]; exact hok
  · rw [hname, htrim]
  · rw [hen]; rfl
  · rfl

theorem failingCount_le (o : ℕ → Bool) :
    ∀ (cmds : List RoutineCmd) (i : ℕ), failingCount o cmds i ≤ cmds.length := by
  intro cmds
  induction cmds with
  | nil => intro i; simp [failingCount]
  | cons c rest ih =>
    intro i
    simp only [failingCount, List.length_cons]
    have := ih (i + 1)
    split <;> omega

/-- Closed form of the executor loop: starting at step index i with the
given counters and trace, it adds the number of non-failing steps to the
success counter, the number of failing steps to the failure counter, and
the per-step trace to the event trace. -/
theorem execLoop_eq (o : ℕ → Bool) (delay : ℕ) :
    ∀ (cmds : List RoutineCmd) (i s f : ℕ) (t : List ExecEvent),
      execLoop o delay cmds i s f t =
        ((s + (cmds.length - failingCount o cmds i), f + failingCount o cmds i),
          t ++ routineTrace delay cmds i) := by
  intro cmds
  induction cmds with
  | nil => intro i s f t; simp [execLoop, failingCount, routineTrace]
  | cons c rest ih =>
    intro i s f t
    have hle := failingCount_le o rest (i + 1)
    rcases htype : (normCmd c).type with hv | ht | hd
    · cases ho : o i <;>
        · simp only [execLoop, htype, ho, ih, failingCount, routineTrace, stepTrace, stepFails,
            List.length_cons]
          simp [Prod.mk.injEq, List.append_assoc] <;> omega
    · cases ho : o i <;>
        · simp only [execLoop, htype, ho, ih, failingCount, routineTrace, stepTrace, stepFails,
            List.length_cons]
          simp [Prod.mk.injEq, List.append_assoc] <;> omega
    · simp only [execLoop, htype, ih, failingCount, routineTrace, stepTrace, stepFails,
        List.length_cons]
      simp [Prod.mk.injEq, List.append_assoc] <;> omega

theorem stepTrace_filter_attempt (delay i : ℕ) (c : RoutineCmd) :
    (stepTrace delay i c).filter ExecEvent.isAttempt = [.attempt i] := by
  unfold stepTrace
  rcases htype : (normCmd c).type <;>
    simp [ExecEvent.isAttempt, List.filter_append, apply_ite (List.filter ExecEvent.isAttempt)]

theorem routineTrace_filter_attempt (delay : ℕ) :
    ∀ (cmds : List RoutineCmd) (i : ℕ),
      (routineTrace delay cmds i).filter ExecEvent.isAttempt =
        (List.range' i cmds.length).map ExecEvent.attempt := by
  intro cmds
  induction cmds with
  | nil => intro i; simp [routineTrace]
  | cons c rest ih =>
    intro i
    rw [List.length_cons, List.range'_succ]
    simp [routineTrace, List.filter_append, stepTrace_filter_attempt, ih]

theorem routineTrace_enumFrom (delay : ℕ) :
    ∀ (cmds : List RoutineCmd) (i : ℕ),
      routineTrace delay cmds i =
        ((List.enumFrom i cmds).map fun p => stepTrace delay p.1 p.2).flatten := by
  intro cmds
  induction cmds with
  | nil => intro i; simp [routineTrace]
  | cons c rest ih => intro i; simp [routineTrace, List.enumFrom, ih]

/-- C4: for every routine of N commands, the executor attempts all N steps
(the trace holds exactly the attempts 0, 1, ..., N-1 in order, whatever the
collaborator oracle does: a failing step is caught and never aborts the
remaining steps, and the loop is total so nothing propagates out), and it
returns success = N - k and failed = k, where k is the number of steps
whose collaborator call fails. -/
theorem executor_partial_failure (o : ℕ → Bool) (routine : Routine) :
    executeRoutine o routine =
      ((routine.commands.length - failingCount o routine.commands 0,
          failingCount o routine.commands 0),
        routineTrace (routine.delay.getD 0) routine.commands 0) ∧
      failingCount o routine.commands 0 ≤ routine.commands.length ∧
      (executeRoutine o routine).2.filter ExecEvent.isAttempt =
        (List.range routine.commands.length).map ExecEvent.attempt := by
  have h := execLoop_eq o (routine.delay.getD 0) routine.commands 0 0 0 []
  have h2 : executeRoutine o routine =
      ((routine.commands.length - failingCount o routine.commands 0,
          failingCount o routine.commands 0),
        routineTrace (routine.delay.getD 0) routine.commands 0) := by
    simpa [executeRoutine] using h
  refine ⟨h2, failingCount_le o _ _, ?_⟩
  rw [h2, List.range_eq_range']
  exact routineTrace_filter_attempt _ _ _

/-- C5: the trace of a routine run is the concatenation of the per-step
traces; for every step index i > 0, the inter-command suspension of
delay milliseconds precedes the step exactly when the routine delay is
positive and the step type is not Delay, and a Delay step contributes only
its own payload wait, never the inter-command delay. -/
theorem delay_exemption (o : ℕ → Bool) (routine : Routine) (i : ℕ)
    (hi : i < routine.commands.length) :
    (executeRoutine o routine).2 = routineTrace (routine.delay.getD 0) routine.commands 0 ∧
      routineTrace (routine.delay.getD 0) routine.commands 0 =
        ((routine.commands.enum.map
          fun p => stepTrace (routine.delay.getD 0) p.1 p.2).flatten) ∧
      ((normCmd (routine.commands.getD i (.str ""))).type ≠ .delay →
        stepTrace (routine.delay.getD 0) i (routine.commands.getD i (.str "")) =
          (if 0 < i ∧ 0 < routine.delay.getD 0 then [.sleep (routine.delay.getD 0)] else []) ++
            [.attempt i]) ∧
      ((normCmd (routine.commands.getD i (.str ""))).type = .delay →
        stepTrace (routine.delay.getD 0) i (routine.commands.getD i (.str "")) =
          [.attempt i] ++
            (if 0 < parseIntOr0 (normCmd (routine.commands.getD i (.str ""))).command then
              [.sleep (parseIntOr0 (normCmd (routine.commands.getD i (.str ""))).command)]
            else [])) := by
  refine ⟨?_, ?_, ?_, ?_⟩
  · have h := execLoop_eq o (routine.delay.getD 0) routine.commands 0 0 0 []
    simpa [executeRoutine] using congrArg Prod.snd h
  · exact routineTrace_enumFrom _ _ _
  · intro htype
    unfold stepTrace
    rcases hc : (normCmd (routine.commands.getD i (.str ""))).type
    · simp
    · simp
    · rw [hc] at htype; simp at htype
  · intro htype
    unfold stepTrace
    rw [htype]
    simp

/-- Witness for C5 at a concrete routine: step 1 is a plain command, so the
inter-command suspension of 100 ms precedes its attempt. -/
theorem delay_exemption_witness :
    1 < rDelay.commands.length ∧
      stepTrace (rDelay.delay.getD 0) 1 (rDelay.commands.getD 1 (.str "")) =
        [.sleep 100, .attempt 1] := by
  have h := (delay_exemption (fun _ => false) rDelay 1 (by decide)).2.2.1 (by decide)
  refine ⟨by decide, ?_⟩
  rw [h]
  decide

/-- The recognizer inner fold either leaves the running best pair unchanged
or stamps it with the name of the template group it is folding. -/
theorem sampleFold_eq_or_name (candidate : List Point) (nm : String) :
    ∀ (samples : List (List Point)) (acc : EReal × String),
      sampleFold candidate nm samples acc = acc ∨
        (sampleFold candidate nm samples acc).2 = nm := by
  intro samples
  induction samples with
  | nil => intro acc; exact Or.inl rfl
  | cons s rest ih =>
    intro acc
    have hcons : sampleFold candidate nm (s :: rest) acc =
        sampleFold candidate nm rest
          (if ((distanceAtBestAngle candidate (normalize s)
              (-AngleRange) AngleRange AnglePrecision : ℝ) : EReal) < acc.1 then
            (((distanceAtBestAngle candidate (normalize s)
              (-AngleRange) AngleRange AnglePrecision : ℝ) : EReal), nm)
          else acc) := rfl
    rw [hcons]
    by_cases hlt : ((distanceAtBestAngle candidate (normalize s)
        (-AngleRange) AngleRange AnglePrecision : ℝ) : EReal) < acc.1
    · rw [if_pos hlt]
      rcases ih (((distanceAtBestAngle candidate (normalize s)
          (-AngleRange) AngleRange AnglePrecision : ℝ) : EReal), nm) with h | h
      · right; rw [h]
      · right; exact h
    · rw [if_neg hlt]
      exact ih acc

/-- The recognizer outer fold either leaves the running best pair unchanged
or stamps it with the name of one of the template groups. -/
theorem bestFold_eq_or_mem (candidate : List Point) :
    ∀ (templates : List Template) (acc : EReal × String),
      bestFold candidate templates acc = acc ∨
        (bestFold candidate templates acc).2 ∈ templates.map Template.name := by
  intro templates
  induction templates with
  | nil => intro acc; exact Or.inl rfl
  | cons tg rest ih =>
    intro acc
    rw [bestFold, List.foldl_cons]
    rcases ih (sampleFold candidate tg.name tg.points acc) with h | h
    · rw [bestFold] at h
      rw [h]
      rcases sampleFold_eq_or_name candidate tg.name tg.points acc with h2 | h2
      · exact Or.inl h2
      · right; rw [h2]; exact List.mem_cons_self _ _
    · rw [bestFold] at h
      right
      rw [List.map_cons]
      exact List.mem_cons_of_mem _ h

/-- C1: with at least 5 points and at least one enabled routine, the engine
builds its templates exactly from the routines whose effective enabled flag
is true (the explicit or defaulted true value), returns recognized with the
matched name, score and full stored routine exactly when the recognizer
score reaches 0.80, and below the threshold still reports the best name and
score with recognized false. -/
theorem engine_threshold_decision (routines : Record Routine) (pts : List Point)
    (h5 : 5 ≤ pts.length) (hne : getEnabled routines ≠ []) :
    (∀ p ∈ getEnabled routines, p.2.enabled.getD true = true) ∧
      (∀ p ∈ routines, p.2.enabled.getD true = true → p ∈ getEnabled routines) ∧
      (((RECOGNITION_THRESHOLD : ℝ) : EReal) ≤
          (recognize pts ((getEnabled routines).map fun p => Template.mk p.1 p.2.samples)).score →
        engineRecognize routines pts =
          ⟨true,
            some (recognize pts
              ((getEnabled routines).map fun p => Template.mk p.1 p.2.samples)).name,
            (recognize pts ((getEnabled routines).map fun p => Template.mk p.1 p.2.samples)).score,
            recLookup (getEnabled routines)
              (recognize pts
                ((getEnabled routines).map fun p => Template.mk p.1 p.2.samples)).name⟩ ∧
        ∃ rt, recLookup (getEnabled routines)
            (recognize pts
              ((getEnabled routines).map fun p => Template.mk p.1 p.2.samples)).name = some rt) ∧
      (¬ ((RECOGNITION_THRESHOLD : ℝ) : EReal) ≤
          (recognize pts ((getEnabled routines).map fun p => Template.mk p.1 p.2.samples)).score →
        engineRecognize routines pts =
          ⟨false,
            some (recognize pts
              ((getEnabled routines).map fun p => Template.mk p.1 p.2.samples)).name,
            (recognize pts ((getEnabled routines).map fun p => Template.mk p.1 p.2.samples)).score,
            none⟩) := by
  have hlt : ¬ pts.length < MIN_POINTS := by simpa [MIN_POINTS] using not_lt.mpr h5
  have hlt5 : ¬ pts.length < 5 := by simpa [MIN_POINTS] using hlt
  have hlen : ¬ ((getEnabled routines).map fun p => Template.mk p.1 p.2.samples).length = 0 := by
    simpa using hne
  refine ⟨?_, ?_, ?_, ?_⟩
  · intro p hp
    have h2 := List.of_mem_filter hp
    rcases hob : p.2.enabled with _ | b
    · rfl
    · rw [hob] at h2
      rcases b
      · simp at h2
      · rfl
  · intro p hp hen
    refine List.mem_filter.mpr ⟨hp, ?_⟩
    rcases hob : p.2.enabled with _ | b
    · simp
    · rw [hob] at hen
      rcases b
      · simp at hen
      · simp
  · intro hscore
    constructor
    · simp only [engineRecognize, if_neg hlt, if_neg hlen, if_pos hscore]
    · -- the matched name is one of the enabled routine names
      set tpl := (getEnabled routines).map fun p => Template.mk p.1 p.2.samples with htpl
      have hbest : recognize pts tpl =
          ⟨(bestFold (normalize pts) tpl ((⊤ : EReal), "")).2,
            1 - (bestFold (normalize pts) tpl ((⊤ : EReal), "")).1 / (HalfDiagonal : EReal)⟩ := by
        rw [recognize, if_neg hlt5]
      have hnotinit : bestFold (normalize pts) tpl ((⊤ : EReal), "") ≠ ((⊤ : EReal), "") := by
        intro heq
        rw [hbest] at hscore
        simp only [heq] at hscore
        rw [EReal.top_div_of_pos_ne_top (by exact_mod_cast HalfDiagonal_pos)
          (EReal.coe_ne_top _), EReal.sub_top] at hscore
        exact absurd (le_bot_iff.mp hscore) (EReal.coe_ne_bot _)
      have hmem : (bestFold (normalize pts) tpl ((⊤ : EReal), "")).2 ∈
          tpl.map Template.name := by
        rcases bestFold_eq_or_mem (normalize pts) tpl ((⊤ : EReal), "") with h | h
        · exact absurd h hnotinit
        · exact h
      have hkey : (recognize pts tpl).name ∈ (getEnabled routines).map Prod.fst := by
        rw [hbest]
        simpa [htpl, List.map_map, Function.comp] using hmem
      obtain ⟨p, hp, hpq⟩ := List.mem_map.mp hkey
      have hfind : ((getEnabled routines).find? fun q => q.1 == (recognize pts tpl).name).isSome := by
        rw [List.find?_isSome]
        exact ⟨p, hp, by simp [hpq]⟩
      obtain ⟨q, hq⟩ := Option.isSome_iff_exists.mp hfind
      exact ⟨q.2, by rw [recLookup, hq]; rfl⟩
  · intro hscore
    simp only [engineRecognize, if_neg hlt, if_neg hlen, if_neg hscore]

/-- Witness for C1 at a concrete store with one enabled routine and a
concrete five-point stroke. -/
theorem engine_threshold_decision_witness :
    5 ≤ P5.length ∧ getEnabled R0 ≠ [] ∧
      ∀ p ∈ getEnabled R0, p.2.enabled.getD true = true := by
  have hne : getEnabled R0 ≠ [] := by
    rw [show getEnabled R0 = [("A", rtA)] from rfl]
    exact List.cons_ne_nil _ _
  exact ⟨by decide, hne, (engine_threshold_decision R0 P5 (by decide) hne).1⟩

theorem distMin_le_init : ∀ (l : List ℝ) (init : EReal), distMin l init ≤ init := by
  intro l
  induction l with
  | nil => intro init; exact le_refl _
  | cons d rest ih =>
    intro init
    have hstep : distMin (d :: rest) init =
        distMin rest (if (d : EReal) < init then (d : EReal) else init) := rfl
    rw [hstep]
    refine le_trans (ih _) ?_
    split
    · exact le_of_lt (by assumption)
    · exact le_refl _

theorem distMin_le_mem :
    ∀ (l : List ℝ) (init : EReal) (d : ℝ), d ∈ l → distMin l init ≤ (d : EReal) := by
  intro l
  induction l with
  | nil => intro init d hd; exact absurd hd (List.not_mem_nil d)
  | cons e rest ih =>
    intro init d hd
    have hstep : distMin (e :: rest) init =
        distMin rest (if (e : EReal) < init then (e : EReal) else init) := rfl
    rw [hstep]
    rcases List.mem_cons.mp hd with h | h
    · subst h
      refine le_trans (distMin_le_init _ _) ?_
      split
      · exact le_refl _
      · exact le_of_not_lt (by assumption)
    · exact ih _ d h

theorem distMin_eq_init_or_mem :
    ∀ (l : List ℝ) (init : EReal),
      distMin l init = init ∨ ∃ d ∈ l, distMin l init = (d : EReal) := by
  intro l
  induction l with
  | nil => intro init; exact Or.inl rfl
  | cons e rest ih =>
    intro init
    have hstep : distMin (e :: rest) init =
        distMin rest (if (e : EReal) < init then (e : EReal) else init) := rfl
    rw [hstep]
    by_cases hlt : (e : EReal) < init
    · rw [if_pos hlt]
      rcases ih ((e : EReal)) with h | ⟨d, hd, h⟩
      · exact Or.inr ⟨e, List.mem_cons_self _ _, h⟩
      · exact Or.inr ⟨d, List.mem_cons_of_mem _ hd, h⟩
    · rw [if_neg hlt]
      rcases ih init with h | ⟨d, hd, h⟩
      · exact Or.inl h
      · exact Or.inr ⟨d, List.mem_cons_of_mem _ hd, h⟩

/-- The distance component of the inner recognizer fold is the running
minimum of the sample distances. -/
theorem sampleFold_fst (candidate : List Point) (nm : String) :
    ∀ (samples : List (List Point)) (acc : EReal × String),
      (sampleFold candidate nm samples acc).1 =
        distMin (samples.map fun s =>
          distanceAtBestAngle candidate (normalize s) (-AngleRange) AngleRange AnglePrecision)
          acc.1 := by
  intro samples
  induction samples with
  | nil => intro acc; rfl
  | cons s rest ih =>
    intro acc
    have hcons : sampleFold candidate nm (s :: rest) acc =
        sampleFold candidate nm rest
          (if ((distanceAtBestAngle candidate (normalize s)
              (-AngleRange) AngleRange AnglePrecision : ℝ) : EReal) < acc.1 then
            (((distanceAtBestAngle candidate (normalize s)
              (-AngleRange) AngleRange AnglePrecision : ℝ) : EReal), nm)
          else acc) := rfl
    rw [hcons, ih]
    rw [List.map_cons]
    have hstep : ∀ (e : ℝ) (l : List ℝ) (init : EReal), distMin (e :: l) init =
        distMin l (if (e : EReal) < init then (e : EReal) else init) := fun _ _ _ => rfl
    rw [hstep]
    congr 1
    split <;> rfl

/-- The distance component of the recognizer fold is the running minimum of
all sample distances of all template groups. -/
theorem bestFold_fst (candidate : List Point) :
    ∀ (templates : List Template) (acc : EReal × String),
      (bestFold candidate templates acc).1 =
        distMin ((templates.map fun tg => tg.points.map fun s =>
          distanceAtBestAngle candidate (normalize s)
            (-AngleRange) AngleRange AnglePrecision).flatten) acc.1 := by
  intro templates
  induction templates with
  | nil => intro acc; rfl
  | cons tg rest ih =>
    intro acc
    have hcons : bestFold candidate (tg :: rest) acc =
        bestFold candidate rest (sampleFold candidate tg.name tg.points acc) := rfl
    rw [hcons, ih, sampleFold_fst]
    rw [List.map_cons, List.flatten_cons]
    unfold distMin
    rw [List.foldl_append]

/-- C8: with at least 5 points and a nonempty template set, the returned
score is 1 - bestDistance / HalfDiagonal, where HalfDiagonal is
0.5 * sqrt 2 * 250 and bestDistance is the minimum best-angle path distance
over all samples of all templates (Infinity when no sample exists); the
score is not clamped, so a best distance beyond the half diagonal makes it
negative. -/
theorem score_shape (pts : List Point) (ts : List Template)
    (h5 : 5 ≤ pts.length) (hne : ts ≠ []) :
    (recognize pts ts).score =
        1 - distMin (sampleDistances pts ts) ⊤ / (HalfDiagonal : EReal) ∧
      HalfDiagonal = 0.5 * Real.sqrt 2 * 250 ∧
      (∀ d ∈ sampleDistances pts ts, distMin (sampleDistances pts ts) ⊤ ≤ (d : EReal)) ∧
      (sampleDistances pts ts ≠ [] →
        ∃ d ∈ sampleDistances pts ts, distMin (sampleDistances pts ts) ⊤ = (d : EReal)) ∧
      ((HalfDiagonal : EReal) < distMin (sampleDistances pts ts) ⊤ →
        (recognize pts ts).score < 0) := by
  have hlt5 : ¬ pts.length < 5 := not_lt.mpr h5
  have hscoreq : (recognize pts ts).score =
      1 - distMin (sampleDistances pts ts) ⊤ / (HalfDiagonal : EReal) := by
    rw [recognize, if_neg hlt5]
    show 1 - (bestFold (normalize pts) ts ((⊤ : EReal), "")).1 / (HalfDiagonal : EReal) = _
    rw [bestFold_fst]
    rfl
  refine ⟨hscoreq, ?_, fun d hd => distMin_le_mem _ _ d hd, ?_, ?_⟩
  · unfold HalfDiagonal Diagonal SquareSize
    rw [show (250.0 : ℝ) * 250.0 + 250.0 * 250.0 = 2 * 250 ^ 2 by norm_num]
    rw [Real.sqrt_mul (by norm_num) ((250 : ℝ) ^ 2), Real.sqrt_sq (by norm_num)]
    ring
  · intro hdne
    rcases distMin_eq_init_or_mem (sampleDistances pts ts) ⊤ with h | h
    · exfalso
      rcases List.exists_mem_of_ne_nil _ hdne with ⟨d, hd⟩
      have hle := distMin_le_mem (sampleDistances pts ts) ⊤ d hd
      rw [h] at hle
      exact absurd (top_le_iff.mp hle) (EReal.coe_ne_top d)
    · exact h
  · intro hgt
    rw [hscoreq]
    rcases distMin_eq_init_or_mem (sampleDistances pts ts) ⊤ with h | ⟨d, _, h⟩
    · rw [h, EReal.top_div_of_pos_ne_top (by exact_mod_cast HalfDiagonal_pos)
        (EReal.coe_ne_top _), EReal.sub_top]
      exact EReal.bot_lt_coe 0
    · rw [h] at hgt ⊢
      have hhd : HalfDiagonal < d := by exact_mod_cast hgt
      rw [← EReal.coe_div, ← EReal.coe_one, ← EReal.coe_sub]
      have : (1 : ℝ) - d / HalfDiagonal < 0 :=
        sub_neg.mpr ((one_lt_div HalfDiagonal_pos).mpr hhd)
      exact_mod_cast this

/-- Witness for C8 at a concrete stroke and a concrete sample-free template
group (its distance list is empty, so the minimum keeps the sentinel). -/
theorem score_shape_witness :
    5 ≤ P5.length ∧ ([⟨"A", []⟩] : List Template) ≠ [] ∧
      (recognize P5 [⟨"A", []⟩]).score =
        1 - distMin (sampleDistances P5 [⟨"A", []⟩]) ⊤ / (HalfDiagonal : EReal) :=
  ⟨by decide, List.cons_ne_nil _ _,
    (score_shape P5 [⟨"A", []⟩] (by decide) (List.cons_ne_nil _ _)).1⟩

/-- C9 counterexample: a view handed out by getAll before a toggle DOES
observe the toggle, because toggle assigns the fields of the stored record
in place instead of replacing it.  Concretely: with one enabled routine, the
materialization of the pre-toggle view changes after toggle. -/
theorem toggle_aliasing_counterexample :
    materialize (toggleH s9 "A" 7).1 (getAllH s9) ≠ materialize s9 (getAllH s9) := by
  intro h
  have h3 := congrArg (fun l : List (String × Option Routine) =>
    ((l.headD ("", none)).2.getD rt9).enabled) h
  exact absurd h3 (by decide)

/-- C9 amended: getAll and getEnabled hand out a fresh table whose entries
reference the stored records; save_routine replaces a record with a freshly
allocated one, so previously handed-out views keep the pre-save records,
and delete only unbinds the table, leaving every view intact; but toggle
rewrites the stored record at its existing reference (flipping enabled and
refreshing updatedAt in place), so previously handed-out views observe it. -/
theorem store_views_amended :
    (∀ (s : HeapState) (r : Routine) (now : ℕ) (s2 : HeapState),
        save_routineH s r now = .ok s2 →
        ∀ view : List (String × ℕ), (∀ p ∈ view, p.2 < s.heap.length) →
          materialize s2 view = materialize s view) ∧
      (∀ (s : HeapState) (nm : String) (view : List (String × ℕ)),
        materialize (deleteH s nm).1 view = materialize s view) ∧
      (∀ (s : HeapState) (nm : String) (now a : ℕ) (r : Routine),
        recLookup s.table nm = some a → s.heap[a]? = some r →
          (toggleH s nm now).1.table = s.table ∧
          derefH (toggleH s nm now).1 a =
            some { r with enabled := some (!(r.enabled.getD true)), updatedAt := some now }) := by
  refine ⟨?_, ?_, ?_⟩
  · intro s r now s2 hok view hview
    have hheap : s2.heap = s.heap ++
        [{ r with
            name := jsTrim r.name
            createdAt := some (jsOrNat
              ((((recLookup s.table (jsTrim r.name)).bind fun a => derefH s a).bind
                Routine.createdAt)) now)
            updatedAt := some now
            enabled := some (r.enabled.getD true) }] := by
      by_cases h1 : jsTrim r.name = ""
      · simp [save_routineH, h1] at hok
      · by_cases h2 : r.commands.isEmpty = true
        · simp [save_routineH, h1, h2] at hok
        · by_cases h3 : r.samples.isEmpty = true
          · simp [save_routineH, h1, h2, h3] at hok
          · simp only [save_routineH, if_neg h1, if_neg h2, if_neg h3, Except.ok.injEq] at hok
            rw [← hok]
    unfold materialize
    refine List.map_congr_left ?_
    intro p hp
    have hlt := hview p hp
    unfold derefH
    rw [hheap, List.getElem?_append_left hlt]
  · intro s nm view
    unfold deleteH
    rcases recLookup s.table nm with _ | a
    · rfl
    · rfl
  · intro s nm now a r hlook hheap
    have hlt : a < s.heap.length := by
      by_contra hcon
      rw [List.getElem?_eq_none (le_of_not_lt hcon)] at hheap
      exact Option.noConfusion hheap
    constructor
    · simp only [toggleH, hlook, hheap]
    · simp only [toggleH, hlook, hheap, derefH]
      simpa using List.getElem?_set_self hlt

/-- Witness for C9 amended at the concrete one-routine state: toggling
rewrites the record at address 0, which the pre-toggle view references. -/
theorem store_views_amended_witness :
    recLookup s9.table "A" = some 0 ∧ s9.heap[0]? = some rt9 ∧
      derefH (toggleH s9 "A" 7).1 0 =
        some { rt9 with enabled := some false, updatedAt := some 7 } := by
  have h := store_views_amended.2.2 s9 "A" 7 0 rt9 rfl rfl
  exact ⟨rfl, rfl, h.2.trans rfl⟩

/-! ### Scale equivariance of the normalization pipeline -/

theorem scalePt_origin (k : ℝ) : scalePt k Origin = Origin := by
  simp [scalePt, Origin]

theorem distance_scale {k : ℝ} (hk : 0 ≤ k) (p q : Point) :
    distance (scalePt k p) (scalePt k q) = k * distance p q := by
  unfold distance scalePt
  rw [show (k * q.x - k * p.x) * (k * q.x - k * p.x) + (k * q.y - k * p.y) * (k * q.y - k * p.y) =
      k ^ 2 * ((q.x - p.x) * (q.x - p.x) + (q.y - p.y) * (q.y - p.y)) by ring]
  rw [Real.sqrt_mul (sq_nonneg k), Real.sqrt_sq hk]

theorem pathLength_scale {k : ℝ} (hk : 0 ≤ k) :
    ∀ l : List Point, pathLength (scaleStroke k l) = k * pathLength l := by
  intro l
  induction l with
  | nil => simp [pathLength, scaleStroke]
  | cons p rest ih =>
    rcases rest with _ | ⟨q, rest2⟩
    · simp [pathLength, scaleStroke]
    · show distance (scalePt k p) (scalePt k q) + pathLength (scaleStroke k (q :: rest2)) =
        k * (distance p q + pathLength (q :: rest2))
      rw [distance_scale hk, ih]
      ring

theorem centroid_scale (k : ℝ) (l : List Point) :
    centroid (scaleStroke k l) = scalePt k (centroid l) := by
  unfold centroid scaleStroke scalePt
  rw [List.map_map, List.map_map, List.length_map]
  have hx : (l.map (Point.x ∘ fun p => (⟨k * p.x, k * p.y⟩ : Point))).sum =
      k * (l.map Point.x).sum := by
    rw [show (Point.x ∘ fun p => (⟨k * p.x, k * p.y⟩ : Point)) = fun p => k * Point.x p from rfl]
    exact List.sum_map_mul_left l Point.x k
  have hy : (l.map (Point.y ∘ fun p => (⟨k * p.x, k * p.y⟩ : Point))).sum =
      k * (l.map Point.y).sum := by
    rw [show (Point.y ∘ fun p => (⟨k * p.x, k * p.y⟩ : Point)) = fun p => k * Point.y p from rfl]
    exact List.sum_map_mul_left l Point.y k
  rw [hx, hy, mul_div_assoc, mul_div_assoc]

theorem headD_scale (k : ℝ) (l : List Point) :
    (scaleStroke k l).headD Origin = scalePt k (l.headD Origin) := by
  rcases l with _ | ⟨p, rest⟩
  · simp [scaleStroke, scalePt_origin]
  · rfl

theorem getD_scale (k : ℝ) (l : List Point) (i : ℕ) :
    (scaleStroke k l).getD i Origin = scalePt k (l.getD i Origin) := by
  rw [List.getD_eq_getElem?_getD, List.getD_eq_getElem?_getD]
  unfold scaleStroke
  rw [List.getElem?_map]
  rcases l[i]? with _ | p
  · simp [scalePt_origin]
  · rfl

theorem atan2_scale {k : ℝ} (hk : 0 < k) (y x : ℝ) :
    atan2 (k * y) (k * x) = atan2 y x := by
  unfold atan2
  have hz : (⟨k * x, k * y⟩ : ℂ) = (k : ℝ) * ⟨x, y⟩ := by
    apply Complex.ext
    · rw [Complex.re_ofReal_mul]
    · rw [Complex.im_ofReal_mul]
  rw [hz, Complex.arg_real_mul _ hk]

theorem indicativeAngle_scale {k : ℝ} (hk : 0 < k) (l : List Point) :
    indicativeAngle (scaleStroke k l) = indicativeAngle l := by
  unfold indicativeAngle
  rw [centroid_scale, headD_scale]
  show atan2 (k * (centroid l).y - k * (l.headD Origin).y)
      (k * (centroid l).x - k * (l.headD Origin).x) = _
  rw [show k * (centroid l).y - k * (l.headD Origin).y =
      k * ((centroid l).y - (l.headD Origin).y) by ring]
  rw [show k * (centroid l).x - k * (l.headD Origin).x =
      k * ((centroid l).x - (l.headD Origin).x) by ring]
  exact atan2_scale hk _ _

theorem rotateBy_scale (k : ℝ) (l : List Point) (radians : ℝ) :
    rotateBy (scaleStroke k l) radians = scaleStroke k (rotateBy l radians) := by
  unfold rotateBy
  rw [centroid_scale]
  unfold scaleStroke
  rw [List.map_map, List.map_map]
  refine List.map_congr_left fun p _ => ?_
  show Point.mk _ _ = Point.mk _ _
  rw [Point.mk.injEq]
  constructor
  · show (k * p.x - k * (centroid l).x) * Real.cos radians -
        (k * p.y - k * (centroid l).y) * Real.sin radians + k * (centroid l).x =
      k * ((p.x - (centroid l).x) * Real.cos radians -
        (p.y - (centroid l).y) * Real.sin radians + (centroid l).x)
    ring
  · show (k * p.x - k * (centroid l).x) * Real.sin radians +
        (k * p.y - k * (centroid l).y) * Real.cos radians + k * (centroid l).y =
      k * ((p.x - (centroid l).x) * Real.sin radians +
        (p.y - (centroid l).y) * Real.cos radians + (centroid l).y)
    ring

theorem foldl_op_scale {k : ℝ} (op : ℝ → ℝ → ℝ) (g : Point → ℝ)
    (hg : ∀ p, g (scalePt k p) = k * g p)
    (hop : ∀ a b, op (k * a) (k * b) = k * op a b) :
    ∀ (ps : List Point) (a : ℝ),
      (ps.map (scalePt k)).foldl (fun m q => op m (g q)) (k * a) =
        k * ps.foldl (fun m q => op m (g q)) a := by
  intro ps
  induction ps with
  | nil => intro a; rfl
  | cons p rest ih =>
    intro a
    show (rest.map (scalePt k)).foldl (fun m q => op m (g q)) (op (k * a) (g (scalePt k p))) = _
    rw [hg, hop]
    exact ih _

theorem boundingBox_scale {k : ℝ} (hk : 0 ≤ k) (l : List Point) :
    boundingBox (scaleStroke k l) =
      ⟨k * (boundingBox l).x, k * (boundingBox l).y,
        k * (boundingBox l).width, k * (boundingBox l).height⟩ := by
  have hmin : ∀ a b : ℝ, min (k * a) (k * b) = k * min a b :=
    fun a b => ((monotone_mul_left_of_nonneg hk).map_min (a := a) (b := b)).symm
  have hmax : ∀ a b : ℝ, max (k * a) (k * b) = k * max a b :=
    fun a b => ((monotone_mul_left_of_nonneg hk).map_max (a := a) (b := b)).symm
  rcases l with _ | ⟨p, ps⟩
  · simp [boundingBox, scaleStroke]
  · have hx := foldl_op_scale min Point.x (fun q => rfl) hmin ps p.x
    have hy := foldl_op_scale min Point.y (fun q => rfl) hmin ps p.y
    have hX := foldl_op_scale max Point.x (fun q => rfl) hmax ps p.x
    have hY := foldl_op_scale max Point.y (fun q => rfl) hmax ps p.y
    have hlhs : boundingBox (scaleStroke k (p :: ps)) =
        ⟨(ps.map (scalePt k)).foldl (fun m q => min m q.x) (k * p.x),
          (ps.map (scalePt k)).foldl (fun m q => min m q.y) (k * p.y),
          (ps.map (scalePt k)).foldl (fun m q => max m q.x) (k * p.x) -
            (ps.map (scalePt k)).foldl (fun m q => min m q.x) (k * p.x),
          (ps.map (scalePt k)).foldl (fun m q => max m q.y) (k * p.y) -
            (ps.map (scalePt k)).foldl (fun m q => min m q.y) (k * p.y)⟩ := rfl
    have hrhs : boundingBox (p :: ps) =
        ⟨ps.foldl (fun m q => min m q.x) p.x, ps.foldl (fun m q => min m q.y) p.y,
          ps.foldl (fun m q => max m q.x) p.x - ps.foldl (fun m q => min m q.x) p.x,
          ps.foldl (fun m q => max m q.y) p.y - ps.foldl (fun m q => min m q.y) p.y⟩ := rfl
    rw [hlhs, hrhs, BBox.mk.injEq]
    refine ⟨hx, hy, ?_, ?_⟩
    · rw [hX, hx]; ring
    · rw [hY, hy]; ring

theorem scale_coeff {k : ℝ} (hk : 0 < k) (size c v : ℝ) :
    (k * v) * (size / (k * c)) = v * (size / c) := by
  calc (k * v) * (size / (k * c)) = k * (v * size) / (k * c) := by ring
    _ = v * size / c := mul_div_mul_left _ _ (ne_of_gt hk)
    _ = v * (size / c) := by rw [mul_div_assoc]

theorem scaleToSquare_scale {k : ℝ} (hk : 0 < k) (l : List Point) (size : ℝ) :
    scaleToSquare (scaleStroke k l) size = scaleToSquare l size := by
  unfold scaleToSquare
  rw [boundingBox_scale (le_of_lt hk)]
  show (scaleStroke k l).map _ = _
  unfold scaleStroke
  rw [List.map_map]
  refine List.map_congr_left fun p _ => ?_
  show Point.mk _ _ = Point.mk _ _
  rw [Point.mk.injEq]
  exact ⟨scale_coeff hk size (boundingBox l).width p.x,
    scale_coeff hk size (boundingBox l).height p.y⟩

theorem splice_map (f : Point → Point) (l : List Point) (i : ℕ) (q : Point) :
    splice (l.map f) i (f q) = (splice l i q).map f := by
  simp [splice, List.map_take, List.map_drop]

theorem interp_scale {k : ℝ} (hk : 0 < k) (I D d a b : ℝ) :
    k * a + (k * I - k * D) / (k * d) * (k * b - k * a) = k * (a + (I - D) / d * (b - a)) := by
  have h : (k * I - k * D) / (k * d) = (I - D) / d := by
    rw [show k * I - k * D = k * (I - D) by ring]
    exact mul_div_mul_left _ _ (ne_of_gt hk)
  rw [h]
  ring

theorem scaleStroke_append (k : ℝ) (l1 l2 : List Point) :
    scaleStroke k (l1 ++ l2) = scaleStroke k l1 ++ scaleStroke k l2 := by
  simp [scaleStroke]

theorem resampleLoop_scale {k : ℝ} (hk : 0 < k) (I : ℝ) :
    ∀ (fuel : ℕ) (src : List Point) (i : ℕ) (D : ℝ) (acc : List Point),
      resampleLoop (k * I) fuel (scaleStroke k src) i (k * D) (scaleStroke k acc) =
        (scaleStroke k (resampleLoop I fuel src i D acc).1,
          scaleStroke k (resampleLoop I fuel src i D acc).2) := by
  intro fuel
  induction fuel with
  | zero => intro src i D acc; rfl
  | succ fuel ih =>
    intro src i D acc
    have hlen : (scaleStroke k src).length = src.length := by simp [scaleStroke]
    by_cases hi : i < src.length
    · have hi2 : i < (scaleStroke k src).length := by rw [hlen]; exact hi
      simp only [resampleLoop, if_pos hi, if_pos hi2]
      rw [getD_scale, getD_scale, distance_scale (le_of_lt hk)]
      by_cases hc : I ≤ D + distance (src.getD (i - 1) Origin) (src.getD i Origin)
      · have hc2 : k * I ≤ k * D + k * distance (src.getD (i - 1) Origin) (src.getD i Origin) := by
          rw [← mul_add]
          exact (mul_le_mul_left hk).mpr hc
        rw [if_pos hc, if_pos hc2]
        have hq : (⟨(scalePt k (src.getD (i - 1) Origin)).x +
              (k * I - k * D) /
                  (k * distance (src.getD (i - 1) Origin) (src.getD i Origin)) *
                ((scalePt k (src.getD i Origin)).x - (scalePt k (src.getD (i - 1) Origin)).x),
            (scalePt k (src.getD (i - 1) Origin)).y +
              (k * I - k * D) /
                  (k * distance (src.getD (i - 1) Origin) (src.getD i Origin)) *
                ((scalePt k (src.getD i Origin)).y - (scalePt k (src.getD (i - 1) Origin)).y)⟩ :
              Point) =
            scalePt k
              ⟨(src.getD (i - 1) Origin).x +
                (I - D) / distance (src.getD (i - 1) Origin) (src.getD i Origin) *
                  ((src.getD i Origin).x - (src.getD (i - 1) Origin).x),
              (src.getD (i - 1) Origin).y +
                (I - D) / distance (src.getD (i - 1) Origin) (src.getD i Origin) *
                  ((src.getD i Origin).y - (src.getD (i - 1) Origin).y)⟩ := by
          show Point.mk _ _ = Point.mk _ _
          rw [Point.mk.injEq]
          exact ⟨interp_scale hk I D _ _ _, interp_scale hk I D _ _ _⟩
        rw [hq, show (scaleStroke k src) = src.map (scalePt k) from rfl, splice_map]
        have ih2 := ih (splice src i
          ⟨(src.getD (i - 1) Origin).x +
              (I - D) / distance (src.getD (i - 1) Origin) (src.getD i Origin) *
                ((src.getD i Origin).x - (src.getD (i - 1) Origin).x),
            (src.getD (i - 1) Origin).y +
              (I - D) / distance (src.getD (i - 1) Origin) (src.getD i Origin) *
                ((src.getD i Origin).y - (src.getD (i - 1) Origin).y)⟩) i 0
          (acc ++ [⟨(src.getD (i - 1) Origin).x +
              (I - D) / distance (src.getD (i - 1) Origin) (src.getD i Origin) *
                ((src.getD i Origin).x - (src.getD (i - 1) Origin).x),
            (src.getD (i - 1) Origin).y +
              (I - D) / distance (src.getD (i - 1) Origin) (src.getD i Origin) *
                ((src.getD i Origin).y - (src.getD (i - 1) Origin).y)⟩])
        rw [mul_zero, scaleStroke_append] at ih2
        exact ih2
      · have hc2 : ¬ k * I ≤ k * D + k * distance (src.getD (i - 1) Origin) (src.getD i Origin) := by
          rw [← mul_add]
          exact fun h => hc ((mul_le_mul_left hk).mp h)
        rw [if_neg hc, if_neg hc2]
        have ih2 := ih src (i + 1) (D + distance (src.getD (i - 1) Origin) (src.getD i Origin)) acc
        rw [mul_add] at ih2
        exact ih2
    · have hi2 : ¬ i < (scaleStroke k src).length := by rw [hlen]; exact hi
      simp only [resampleLoop, if_neg hi, if_neg hi2]

theorem resample_scale {k : ℝ} (hk : 0 < k) (points : List Point) (n : ℕ) :
    resample (scaleStroke k points) n = scaleStroke k (resample points n) := by
  have hfuel : ((scaleStroke k points).length + n) * NumPoints =
      (points.length + n) * NumPoints := by
    simp [scaleStroke]
  have hloop := resampleLoop_scale hk (pathLength points / ((n : ℝ) - 1))
    ((points.length + n) * NumPoints) points 1 0 [points.headD Origin]
  rw [mul_zero] at hloop
  simp only [resample]
  rw [pathLength_scale (le_of_lt hk), mul_div_assoc, hfuel, headD_scale,
    show [scalePt k (points.headD Origin)] = scaleStroke k [points.headD Origin] from rfl,
    hloop]
  set r := resampleLoop (pathLength points / ((n : ℝ) - 1))
    ((points.length + n) * NumPoints) points 1 0 [points.headD Origin]
  have hlen2 : (scaleStroke k r.2).length = r.2.length := by simp [scaleStroke]
  rw [hlen2]
  have hlast : (scaleStroke k r.1).getLast?.getD Origin =
      scalePt k (r.1.getLast?.getD Origin) := by
    unfold scaleStroke
    rw [List.getLast?_map]
    rcases r.1.getLast? with _ | p
    · simp [scalePt_origin]
    · rfl
  by_cases hn : r.2.length = n - 1
  · rw [if_pos hn, if_pos hn, hlast, scaleStroke_append]
    rfl
  · rw [if_neg hn, if_neg hn]

theorem normalize_scale {k : ℝ} (hk : 0 < k) (points : List Point) :
    normalize (scaleStroke k points) = normalize points := by
  simp only [normalize]
  rw [resample_scale hk, indicativeAngle_scale hk, rotateBy_scale, scaleToSquare_scale hk]

theorem recognize_scale {k : ℝ} (hk : 0 < k) (pts : List Point) (ts : List Template) :
    recognize (scaleStroke k pts) ts = recognize pts ts := by
  have hlen : (scaleStroke k pts).length = pts.length := by simp [scaleStroke]
  unfold recognize
  rw [hlen]
  by_cases h5 : pts.length < 5
  · rw [if_pos h5, if_pos h5]
  · rw [if_neg h5, if_neg h5, normalize_scale hk]

/-- C7: for every stroke with at least 5 points and every uniform scale
factor k > 0, recognizing the stroke against itself as the single template
yields the same score before and after scaling: the normalization pipeline
removes uniform scale (over the reals the equality is exact, with no
floating tolerance needed). -/
theorem scale_invariance (S : List Point) (nm : String) (k : ℝ)
    (h5 : 5 ≤ S.length) (hk : 0 < k) :
    (recognize (scaleStroke k S) [⟨nm, [S]⟩]).score =
      (recognize S [⟨nm, [S]⟩]).score := by
  rw [recognize_scale hk]

/-- Witness for C7 at a concrete five-point stroke and scale factor 2. -/
theorem scale_invariance_witness :
    5 ≤ P5.length ∧ (0 : ℝ) < 2 ∧
      (recognize (scaleStroke 2 P5) [⟨"A", [P5]⟩]).score =
        (recognize P5 [⟨"A", [P5]⟩]).score :=
  ⟨by decide, two_pos, scale_invariance P5 "A" 2 (by decide) two_pos⟩

end CodePen
